import Mathlib

/-!
Verification of the keyframe-extraction quality-control engine: a shallow
embedding of the scene-detection threshold search, per-frame quality gate,
near-duplicate elimination, and pipeline orchestration, together with
theorems about their behaviour.

External collaborators (OpenCV, imagehash, PySceneDetect) are modelled as
abstract observations attached to each frame / as an abstract detector
function: a `Frame` carries the Laplacian-variance blur score, mean
intensity, intensity standard deviation and perceptual fingerprint that
the external libraries would compute for it, so the decision logic of the
source is reproduced exactly over those observations.  Floating point
scores are modelled as rationals; the perceptual-hash string is modelled
as the list of its characters (compared position-wise, as the source's
`hamming_distance` does).
-/

namespace VideoKeyframe

-- Rational arithmetic is sealed in the standard library; reopening it lets
-- concrete runs of the definitions below be evaluated by `decide`.
unseal Rat.add Rat.mul Rat.inv Rat.sub

/-- Abstract frame: the per-frame observations produced by the external
image libraries (cv2 Laplacian variance, grayscale mean and standard
deviation, imagehash pHash string). -/
structure Frame where
  blurScore : ℚ
  avgIntensity : ℚ
  intensityStd : ℚ
  phash : List Nat
deriving DecidableEq, Repr

/-- `Scene` dataclass from `src/scene_detector.py`. -/
structure Scene where
  scene_id : Nat
  start_time : ℚ
  end_time : ℚ
  start_frame : Nat
  end_frame : Nat
deriving DecidableEq, Repr

/-- `Scene.duration` property. -/
def Scene.duration (s : Scene) : ℚ := s.end_time - s.start_time

/-- `Scene.mid_frame` property: `(start_frame + end_frame) // 2`. -/
def Scene.mid_frame (s : Scene) : Nat := (s.start_frame + s.end_frame) / 2

/-- The rejection reason string of `QualityMetrics.rejection_reason`,
modelled as an inductive carrying the data interpolated into the source's
format strings (`noReason` stands for the empty string `""`). -/
inductive RejectionReason
  | noReason
  | blur (score threshold : ℚ)
  | fadeTransition (intensity std : ℚ)
deriving DecidableEq, Repr

/-- `QualityMetrics` dataclass from `src/quality_control.py`. -/
structure QualityMetrics where
  frame_id : Nat
  laplacian_variance : ℚ
  avg_intensity : ℚ
  intensity_std : ℚ
  is_sharp : Bool
  is_transition : Bool
  passes_quality : Bool
  rejection_reason : RejectionReason
deriving DecidableEq, Repr

/-- Configuration of `QualityControl.__init__`. -/
structure QualityControl where
  blur_threshold : ℚ
  fade_black_threshold : ℚ
  fade_white_threshold : ℚ
  fade_std_threshold : ℚ
  dedup_hash_distance : Nat
deriving DecidableEq, Repr

/-- The default constructor arguments of `QualityControl`. -/
def defaultQualityControl : QualityControl := ⟨100, 25, 230, 15, 5⟩

/-- `QualityControl.calculate_blur_score`: the Laplacian-variance blur
metric, an external cv2 computation modelled as the frame's `blurScore`
observation. -/
def calculate_blur_score (f : Frame) : ℚ := f.blurScore

/-- `QualityControl.check_fade_transition`: returns
`(is_fade, avg_intensity, intensity_std)`. -/
def check_fade_transition (qc : QualityControl) (f : Frame) : Bool × ℚ × ℚ :=
  let avg_intensity := f.avgIntensity
  let intensity_std := f.intensityStd
  if avg_intensity < qc.fade_black_threshold ∧ intensity_std < qc.fade_std_threshold then
    (true, avg_intensity, intensity_std)
  else if avg_intensity > qc.fade_white_threshold ∧ intensity_std < qc.fade_std_threshold then
    (true, avg_intensity, intensity_std)
  else if intensity_std < qc.fade_std_threshold / 2 then
    (true, avg_intensity, intensity_std)
  else
    (false, avg_intensity, intensity_std)

/-- `QualityControl.evaluate_frame`. -/
def evaluate_frame (qc : QualityControl) (f : Frame) (frame_id : Nat) : QualityMetrics :=
  let blur_score := calculate_blur_score f
  let is_sharp : Bool := decide (blur_score ≥ qc.blur_threshold)
  let fade := check_fade_transition qc f
  let is_fade := fade.1
  let avg_intensity := fade.2.1
  let intensity_std := fade.2.2
  let passes := is_sharp && !is_fade
  let reason :=
    if is_sharp = false then RejectionReason.blur blur_score qc.blur_threshold
    else if is_fade = true then RejectionReason.fadeTransition avg_intensity intensity_std
    else RejectionReason.noReason
  ⟨frame_id, blur_score, avg_intensity, intensity_std, is_sharp, is_fade, passes, reason⟩

/-- `QualityControl.compute_phash`: external imagehash computation,
modelled as the frame's `phash` observation. -/
def compute_phash (f : Frame) : List Nat := f.phash

/-- `QualityControl.hamming_distance`:
`sum(c1 != c2 for c1, c2 in zip(hash1, hash2))`. -/
def hamming_distance (hash1 hash2 : List Nat) : Nat :=
  (hash1.zip hash2).countP (fun p => decide (p.1 ≠ p.2))

/-- The content of one entry of the `duplicates` list built by
`QualityControl.deduplicate_frames` (the source formats these three
fields into a string). -/
structure DuplicateRecord where
  duplicate_frame_id : Nat
  matched_kept_frame_id : Nat
  hamming_distance : Nat
deriving DecidableEq, Repr

/-- The duplicate test of the inner loop of
`QualityControl.deduplicate_frames`: `distance <= self.dedup_hash_distance`
for frame `i` against kept frame `k`. -/
def dedupMatch (hashes : List (List Nat)) (maxDist i k : Nat) : Bool :=
  decide (hamming_distance (hashes.getD i []) (hashes.getD k []) ≤ maxDist)

/-- One iteration of the `for i in range(1, len(frames))` loop of
`QualityControl.deduplicate_frames`: scan the kept list in insertion
order for the first kept frame within `maxDist`, and either record a
duplicate or keep `i`. -/
def dedupStep (hashes : List (List Nat)) (frame_ids : List Nat) (maxDist : Nat)
    (acc : List Nat × List DuplicateRecord) (i : Nat) :
    List Nat × List DuplicateRecord :=
  let kept := acc.1
  let dups := acc.2
  match kept.find? (dedupMatch hashes maxDist i) with
  | some k =>
      (kept, dups ++ [⟨frame_ids.getD i 0, frame_ids.getD k 0,
        hamming_distance (hashes.getD i []) (hashes.getD k [])⟩])
  | none => (kept ++ [i], dups)

/-- State of `deduplicate_frames` after processing input indices `1..m`
(the kept list is initialised to `[0]`: the first frame is always kept). -/
def dedupRun (hashes : List (List Nat)) (frame_ids : List Nat) (maxDist : Nat) :
    Nat → List Nat × List DuplicateRecord
  | 0 => ([0], [])
  | m + 1 => dedupStep hashes frame_ids maxDist (dedupRun hashes frame_ids maxDist m) (m + 1)

/-- `QualityControl.deduplicate_frames`: returns
`(kept_frame_indices, duplicate_records)`. -/
def deduplicate_frames (frames : List Frame) (frame_ids : List Nat) (maxDist : Nat) :
    List Nat × List DuplicateRecord :=
  if frames.isEmpty then ([], [])
  else
    let hashes := frames.map compute_phash
    dedupRun hashes frame_ids maxDist (frames.length - 1)

/-- One entry of the `iterations_data` trace of
`AdaptiveSceneDetector.detect_scenes`. -/
structure IterationData where
  iteration : Nat
  threshold : ℚ
  scenes : Nat
  diff : Nat
deriving DecidableEq, Repr

/-- `abs(scene_count - target_scenes)`. -/
def scene_diff (scene_count target : Nat) : Nat :=
  Int.natAbs ((scene_count : ℤ) - (target : ℤ))

/-- The best-so-far update `if diff < best_diff: best_result = (scenes, threshold)`;
`none` models the initial `best_diff = inf`, the stored `Nat` is `best_diff`. -/
def updateBest (scenes : List Scene) (threshold : ℚ) (diff : Nat) :
    Option (List Scene × ℚ × Nat) → Option (List Scene × ℚ × Nat)
  | none => some (scenes, threshold, diff)
  | some b => if diff < b.2.2 then some (scenes, threshold, diff) else some b

/-- The `for iteration in range(7)` loop of
`AdaptiveSceneDetector.detect_scenes`, with the external fixed-threshold
detector abstracted as `detect : threshold → scene list` (the video path
is fixed for the whole search).  Returns the iteration trace of the
executed probes and the `best_result` finally unpacked by the source
(`none` only when the loop never ran). -/
def adaptiveLoop (detect : ℚ → List Scene) (target tolerance : Nat) :
    Nat → Nat → ℚ → ℚ → Option (List Scene × ℚ × Nat) →
    List IterationData × Option (List Scene × ℚ)
  | 0, _, _, _, best => ([], best.map (fun b => (b.1, b.2.1)))
  | fuel + 1, iteration, low, high, best =>
      let threshold := (low + high) / 2
      let scenes := detect threshold
      let scene_count := scenes.length
      let diff := scene_diff scene_count target
      let entry : IterationData := ⟨iteration, threshold, scene_count, diff⟩
      let best1 := updateBest scenes threshold diff best
      if diff ≤ tolerance then
        ([entry], best1.map (fun b => (b.1, b.2.1)))
      else
        let bounds := if scene_count < target then (low, threshold) else (threshold, high)
        let next := adaptiveLoop detect target tolerance fuel (iteration + 1)
          bounds.1 bounds.2 best1
        (entry :: next.1, next.2)

/-- `AdaptiveSceneDetector.detect_scenes`: search bounds 15–50, seven
iterations, starting with no best result. -/
def adaptiveDetectScenes (detect : ℚ → List Scene) (target tolerance : Nat) :
    List IterationData × Option (List Scene × ℚ) :=
  adaptiveLoop detect target tolerance 7 0 15 50 none

/-- The pure counters of `ProcessingStats` from `src/pipeline.py`
(wall-clock and video-file fields, which depend on I/O, are omitted). -/
structure ProcessingStats where
  scenes_detected : Nat
  frames_extracted : Nat
  frames_blur_rejected : Nat
  frames_transition_rejected : Nat
  frames_dedup_removed : Nat
  frames_final : Nat
deriving DecidableEq, Repr

/-- Everything `KeyframeExtractionPipeline.process_video` computes and
persists after scene detection: the extracted `(frame, scene)` pairs, the
per-frame quality metrics, the quality-passed pairs, the final keyframe
pairs, the duplicate records and the stats counters. -/
structure PipelineResult where
  extracted : List (Frame × Scene)
  quality_metrics : List QualityMetrics
  quality_passed : List (Frame × Scene)
  final : List (Frame × Scene)
  duplicate_info : List DuplicateRecord
  stats : ProcessingStats
deriving DecidableEq, Repr

/-- `KeyframeExtractionPipeline._extract_keyframes`: seek each scene's
`mid_frame` in the external frame source `read`; a failed read (`none`)
silently drops that scene. -/
def extract_keyframes (read : Nat → Option Frame) (scenes : List Scene) :
    List (Frame × Scene) :=
  scenes.filterMap (fun s => (read s.mid_frame).map (fun f => (f, s)))

/-- The decision dataflow of `KeyframeExtractionPipeline.process_video`,
over an already-computed scene list (scene detection is the external
detector) and the external frame source `read`.  `none` models the
`return None` fatal abort on an empty scene list: no frames extracted, no
keyframes saved, no report written. -/
def process_video (qc : QualityControl) (read : Nat → Option Frame)
    (scenes : List Scene) : Option PipelineResult :=
  if scenes.isEmpty then none
  else
    let extracted := extract_keyframes read scenes
    let quality_metrics := extracted.map (fun fs => evaluate_frame qc fs.1 fs.2.scene_id)
    let blur_rejected := quality_metrics.countP (fun m => !m.is_sharp)
    let transition_rejected := quality_metrics.countP (fun m => m.is_sharp && m.is_transition)
    let quality_passed := extracted.filter (fun fs =>
      let m := evaluate_frame qc fs.1 fs.2.scene_id
      m.is_sharp && !m.is_transition)
    let dedup :=
      if 1 < quality_passed.length then
        let kd := deduplicate_frames (quality_passed.map Prod.fst)
          (quality_passed.map (fun fs => fs.2.scene_id)) qc.dedup_hash_distance
        (kd.1.filterMap (fun i => quality_passed[i]?), kd.2)
      else (quality_passed, ([] : List DuplicateRecord))
    some ⟨extracted, quality_metrics, quality_passed, dedup.1, dedup.2,
      ⟨scenes.length, extracted.length, blur_rejected, transition_rejected,
        quality_passed.length - dedup.1.length, dedup.1.length⟩⟩

/-- A non-transition test frame (mid intensity, large spread) with a given
blur score and fingerprint. -/
def exFrame (b : ℚ) (fp : List Nat) : Frame := ⟨b, 128, 50, fp⟩

/-- Test frame 1 (1-indexed): blur score 150. -/
def fA : Frame := exFrame 150 (List.replicate 16 0)

/-- Test frame 2: blur score 40. -/
def fB : Frame := exFrame 40 (List.replicate 16 1)

/-- Test frame 3: blur score 200. -/
def fC : Frame := exFrame 200 (List.replicate 16 2)

/-- Test frame 4: blur score 180. -/
def fD : Frame := exFrame 180 (List.replicate 16 3)

/-- Test frame 5: blur score 190; its fingerprint is at Hamming distance 3
from frame 3's and at distance 16 from every other test fingerprint. -/
def fE : Frame := exFrame 190 ([9, 9, 9] ++ List.replicate 13 2)

/-- The five synthetic test frames with blur scores `[150, 40, 200, 180, 190]`. -/
def exFrames : List Frame := [fA, fB, fC, fD, fE]

/-- Synthetic scene `i` whose `mid_frame` is `i`. -/
def exScene (i : Nat) : Scene := ⟨i, (i : ℚ), (i : ℚ) + 1, i, i⟩

/-- Five synthetic scenes with ids 1–5. -/
def exScenes : List Scene := [exScene 1, exScene 2, exScene 3, exScene 4, exScene 5]

/-- Frame source serving test frame `k` at frame index `k` (1-indexed). -/
def exRead : Nat → Option Frame := fun k => exFrames.get? (k - 1)

/-- The pipeline run on the five synthetic scenes. -/
def exRun : PipelineResult :=
  (process_video defaultQualityControl exRead exScenes).getD ⟨[], [], [], [], [], ⟨0, 0, 0, 0, 0, 0⟩⟩

/-- A detector probe that always reports zero scenes (used to exercise the
adaptive search's non-convergent path). -/
def zeroDetect : ℚ → List Scene := fun _ => []

/-- A frame whose blur score sits exactly on the default blur threshold. -/
def fBoundary : Frame := ⟨100, 128, 50, []⟩

/-- Claim C6: the quality gate classifies a frame as sharp exactly when its
Laplacian-variance blur score is at least the blur threshold, and a score
exactly equal to the threshold yields `is_sharp = true` (inclusive lower
bound). -/
theorem blur_gate_inclusive (qc : QualityControl) (f : Frame) (frame_id : Nat) :
    ((evaluate_frame qc f frame_id).is_sharp = true ↔
      qc.blur_threshold ≤ calculate_blur_score f)
    ∧ (calculate_blur_score f = qc.blur_threshold →
        (evaluate_frame qc f frame_id).is_sharp = true) := by
  constructor
  · simp [evaluate_frame, ge_iff_le]
  · intro h
    simp [evaluate_frame, ge_iff_le, h]

/-- Witness for C6: a blur score of exactly 100 against the default
threshold 100 is classified sharp. -/
theorem blur_gate_inclusive_witness :
    (evaluate_frame defaultQualityControl fBoundary 0).is_sharp = true :=
  (blur_gate_inclusive defaultQualityControl fBoundary 0).2 rfl

/-- Both components of `check_fade_transition` after the flag are always the
frame's mean intensity and intensity standard deviation. -/
theorem check_fade_transition_snd (qc : QualityControl) (f : Frame) :
    (check_fade_transition qc f).2 = (f.avgIntensity, f.intensityStd) := by
  unfold check_fade_transition
  dsimp only
  split_ifs <;> rfl

/-- Claim C7: `passes_quality = is_sharp ∧ ¬is_transition`; the rejection
reason is the first failing check in the order blur then transition (a
frame failing both reports only the blur reason), and it is empty exactly
when the frame passes. -/
theorem quality_verdict_and_reason (qc : QualityControl) (f : Frame) (frame_id : Nat) :
    ((evaluate_frame qc f frame_id).passes_quality =
        ((evaluate_frame qc f frame_id).is_sharp && !(evaluate_frame qc f frame_id).is_transition))
    ∧ ((evaluate_frame qc f frame_id).rejection_reason = RejectionReason.noReason ↔
        (evaluate_frame qc f frame_id).passes_quality = true)
    ∧ ((evaluate_frame qc f frame_id).is_sharp = false →
        (evaluate_frame qc f frame_id).rejection_reason =
          RejectionReason.blur (calculate_blur_score f) qc.blur_threshold)
    ∧ ((evaluate_frame qc f frame_id).is_sharp = true →
        (evaluate_frame qc f frame_id).is_transition = true →
        (evaluate_frame qc f frame_id).rejection_reason =
          RejectionReason.fadeTransition f.avgIntensity f.intensityStd) := by
  have hsnd := check_fade_transition_snd qc f
  unfold evaluate_frame
  cases hs : decide (calculate_blur_score f ≥ qc.blur_threshold) <;>
    cases hf : (check_fade_transition qc f).1 <;>
      simp [hs, hf, hsnd]

/-- Witness for C7: the blurry test frame (score 40 < 100) is rejected with
the blur reason. -/
theorem quality_verdict_and_reason_witness :
    (evaluate_frame defaultQualityControl fB 2).rejection_reason =
      RejectionReason.blur (calculate_blur_score fB) defaultQualityControl.blur_threshold :=
  (quality_verdict_and_reason defaultQualityControl fB 2).2.2.1 (by decide)

/-- Claim C10: deduplication of an empty frame sequence returns an empty
kept-index sequence and an empty duplicate-record sequence. -/
theorem dedup_empty_input (frame_ids : List Nat) (maxDist : Nat) :
    deduplicate_frames [] frame_ids maxDist = ([], []) := rfl

/-- Claim C9: an empty scene list is a fatal abort: `process_video` returns
`none`, so nothing is extracted, persisted or reported. -/
theorem pipeline_empty_scenes_abort (qc : QualityControl) (read : Nat → Option Frame)
    (scenes : List Scene) (h : scenes = []) :
    process_video qc read scenes = none := by
  subst h
  rfl

/-- Witness for C9: the concrete empty-scene run aborts. -/
theorem pipeline_empty_scenes_abort_witness :
    process_video defaultQualityControl exRead [] = none :=
  pipeline_empty_scenes_abort defaultQualityControl exRead [] rfl

/-- Counterexample for C8: on the five synthetic frames with blur scores
`[150, 40, 200, 180, 190]` and threshold 100, it is false that exactly
frames 2, 4, 5 (1-indexed) pass the sharpness check leaving 2 final
keyframes. -/
theorem example_run_counterexample :
    ¬ ((exRun.quality_metrics.filter (fun m => m.is_sharp)).map (fun m => m.frame_id)
          = [2, 4, 5]
        ∧ exRun.final.length = 2) := by
  decide

/-- Claim C8 (amended): with blur scores `[150, 40, 200, 180, 190]` and
threshold 100, exactly frames 1, 3, 4, 5 (1-indexed) pass the sharpness
check; with frames 3 and 5 at fingerprint Hamming distance 3 and the other
pairs beyond the threshold 5, frame 5 is eliminated as a duplicate of
frame 3, leaving 3 final keyframes. -/
theorem example_run_amended :
    (exRun.quality_metrics.filter (fun m => m.is_sharp)).map (fun m => m.frame_id)
        = [1, 3, 4, 5]
    ∧ exRun.final.map (fun fs => fs.2.scene_id) = [1, 3, 4]
    ∧ exRun.duplicate_info = [⟨5, 3, 3⟩]
    ∧ exRun.stats.frames_final = 3 := by
  decide

/-- Unfolding of one deduplication step when a kept match is found. -/
theorem dedupStep_found (hashes : List (List Nat)) (frame_ids : List Nat) (maxDist : Nat)
    (acc : List Nat × List DuplicateRecord) (i k : Nat)
    (h : acc.1.find? (dedupMatch hashes maxDist i) = some k) :
    dedupStep hashes frame_ids maxDist acc i =
      (acc.1, acc.2 ++ [⟨frame_ids.getD i 0, frame_ids.getD k 0,
        hamming_distance (hashes.getD i []) (hashes.getD k [])⟩]) := by
  simp only [dedupStep, h]

/-- Unfolding of one deduplication step when no kept frame matches. -/
theorem dedupStep_none (hashes : List (List Nat)) (frame_ids : List Nat) (maxDist : Nat)
    (acc : List Nat × List DuplicateRecord) (i : Nat)
    (h : acc.1.find? (dedupMatch hashes maxDist i) = none) :
    dedupStep hashes frame_ids maxDist acc i = (acc.1 ++ [i], acc.2) := by
  simp only [dedupStep, h]

/-- Invariant of the deduplication loop: the kept list always contains
index 0, is bounded by the number of processed indices, and is strictly
increasing. -/
theorem dedupRun_kept_inv (hashes : List (List Nat)) (frame_ids : List Nat) (maxDist : Nat)
    (m : Nat) :
    0 ∈ (dedupRun hashes frame_ids maxDist m).1
    ∧ (∀ k ∈ (dedupRun hashes frame_ids maxDist m).1, k ≤ m)
    ∧ (dedupRun hashes frame_ids maxDist m).1.Pairwise (· < ·) := by
  induction m with
  | zero => simp [dedupRun]
  | succ m ih =>
    obtain ⟨h0, hle, hsort⟩ := ih
    have hrun : dedupRun hashes frame_ids maxDist (m + 1)
        = dedupStep hashes frame_ids maxDist (dedupRun hashes frame_ids maxDist m) (m + 1) := rfl
    cases hf : (dedupRun hashes frame_ids maxDist m).1.find? (dedupMatch hashes maxDist (m + 1)) with
    | some k =>
      rw [hrun, dedupStep_found hashes frame_ids maxDist _ _ k hf]
      exact ⟨h0, fun k hk => Nat.le_succ_of_le (hle k hk), hsort⟩
    | none =>
      rw [hrun, dedupStep_none hashes frame_ids maxDist _ _ hf]
      refine ⟨List.mem_append_left _ h0, ?_, ?_⟩
      · intro k hk
        rcases List.mem_append.mp hk with h | h
        · exact Nat.le_succ_of_le (hle k h)
        · simp only [List.mem_singleton] at h
          omega
      · rw [List.pairwise_append]
        refine ⟨hsort, List.pairwise_singleton _ _, ?_⟩
        intro a ha b hb
        simp only [List.mem_singleton] at hb
        subst hb
        exact Nat.lt_succ_of_le (hle a ha)

/-- Each deduplication step either leaves the kept list unchanged or
appends the newly processed index. -/
theorem dedupRun_kept_succ (hashes : List (List Nat)) (frame_ids : List Nat) (maxDist : Nat)
    (m : Nat) :
    (dedupRun hashes frame_ids maxDist (m + 1)).1 = (dedupRun hashes frame_ids maxDist m).1
    ∨ (dedupRun hashes frame_ids maxDist (m + 1)).1
        = (dedupRun hashes frame_ids maxDist m).1 ++ [m + 1] := by
  have hrun : dedupRun hashes frame_ids maxDist (m + 1)
      = dedupStep hashes frame_ids maxDist (dedupRun hashes frame_ids maxDist m) (m + 1) := rfl
  cases hf : (dedupRun hashes frame_ids maxDist m).1.find? (dedupMatch hashes maxDist (m + 1)) with
  | some k =>
    left
    rw [hrun, dedupStep_found hashes frame_ids maxDist _ _ k hf]
  | none =>
    right
    rw [hrun, dedupStep_none hashes frame_ids maxDist _ _ hf]

/-- Each deduplication step either leaves the duplicate records unchanged
or appends one record. -/
theorem dedupRun_dups_succ (hashes : List (List Nat)) (frame_ids : List Nat) (maxDist : Nat)
    (m : Nat) :
    (dedupRun hashes frame_ids maxDist (m + 1)).2 = (dedupRun hashes frame_ids maxDist m).2
    ∨ ∃ r, (dedupRun hashes frame_ids maxDist (m + 1)).2
        = (dedupRun hashes frame_ids maxDist m).2 ++ [r] := by
  have hrun : dedupRun hashes frame_ids maxDist (m + 1)
      = dedupStep hashes frame_ids maxDist (dedupRun hashes frame_ids maxDist m) (m + 1) := rfl
  cases hf : (dedupRun hashes frame_ids maxDist m).1.find? (dedupMatch hashes maxDist (m + 1)) with
  | some k =>
    right
    exact ⟨_, by rw [hrun, dedupStep_found hashes frame_ids maxDist _ _ k hf]⟩
  | none =>
    left
    rw [hrun, dedupStep_none hashes frame_ids maxDist _ _ hf]

/-- Indices already decided are never revisited: membership of `j` in the
kept list is stable once the loop has passed `j`. -/
theorem dedupRun_kept_stable (hashes : List (List Nat)) (frame_ids : List Nat) (maxDist : Nat)
    {j m : Nat} (hj : j ≤ m) :
    ∀ m', m ≤ m' →
      (j ∈ (dedupRun hashes frame_ids maxDist m').1 ↔
        j ∈ (dedupRun hashes frame_ids maxDist m).1) := by
  intro m' hm
  induction m' with
  | zero =>
    obtain rfl : m = 0 := Nat.le_zero.mp hm
    exact Iff.rfl
  | succ m' ih =>
    by_cases he : m = m' + 1
    · subst he
      exact Iff.rfl
    · have hm' : m ≤ m' := by omega
      have hiter := ih hm'
      rcases dedupRun_kept_succ hashes frame_ids maxDist m' with h2 | h2
      · rw [h2]
        exact hiter
      · rw [h2, List.mem_append, List.mem_singleton]
        have hne : j ≠ m' + 1 := by omega
        simp [hne, hiter]

/-- Index `m + 1` survives deduplication exactly when the scan over the
previously kept frames finds no match. -/
theorem dedupRun_mem_succ_iff (hashes : List (List Nat)) (frame_ids : List Nat) (maxDist : Nat)
    (m : Nat) :
    (m + 1) ∈ (dedupRun hashes frame_ids maxDist (m + 1)).1 ↔
      (dedupRun hashes frame_ids maxDist m).1.find? (dedupMatch hashes maxDist (m + 1)) = none := by
  obtain ⟨h0, hle, hsort⟩ := dedupRun_kept_inv hashes frame_ids maxDist m
  have hrun : dedupRun hashes frame_ids maxDist (m + 1)
      = dedupStep hashes frame_ids maxDist (dedupRun hashes frame_ids maxDist m) (m + 1) := rfl
  cases hf : (dedupRun hashes frame_ids maxDist m).1.find? (dedupMatch hashes maxDist (m + 1)) with
  | some k =>
    rw [hrun, dedupStep_found hashes frame_ids maxDist _ _ k hf]
    constructor
    · intro hmem
      have := hle _ hmem
      omega
    · intro h
      cases h
  | none =>
    rw [hrun, dedupStep_none hashes frame_ids maxDist _ _ hf]
    simp

/-- Duplicate records only accumulate as the loop proceeds. -/
theorem dedupRun_dups_mono (hashes : List (List Nat)) (frame_ids : List Nat) (maxDist : Nat)
    {m m' : Nat} (h : m ≤ m') :
    ∀ r ∈ (dedupRun hashes frame_ids maxDist m).2, r ∈ (dedupRun hashes frame_ids maxDist m').2 := by
  induction m' with
  | zero =>
    obtain rfl : m = 0 := Nat.le_zero.mp h
    exact fun r hr => hr
  | succ m' ih =>
    by_cases he : m = m' + 1
    · subst he
      exact fun r hr => hr
    · have hm' : m ≤ m' := by omega
      intro r hr
      have hr' := ih hm' r hr
      rcases dedupRun_dups_succ hashes frame_ids maxDist m' with h2 | ⟨r2, h2⟩
      · rw [h2]
        exact hr'
      · rw [h2]
        exact List.mem_append_left _ hr'

/-- When the scan for index `m + 1` finds kept frame `k`, the corresponding
duplicate record is appended. -/
theorem dedupRun_record (hashes : List (List Nat)) (frame_ids : List Nat) (maxDist : Nat)
    (m k : Nat)
    (hf : (dedupRun hashes frame_ids maxDist m).1.find? (dedupMatch hashes maxDist (m + 1))
      = some k) :
    (⟨frame_ids.getD (m + 1) 0, frame_ids.getD k 0,
      hamming_distance (hashes.getD (m + 1) []) (hashes.getD k [])⟩ : DuplicateRecord)
      ∈ (dedupRun hashes frame_ids maxDist (m + 1)).2 := by
  have hrun : dedupRun hashes frame_ids maxDist (m + 1)
      = dedupStep hashes frame_ids maxDist (dedupRun hashes frame_ids maxDist m) (m + 1) := rfl
  rw [hrun, dedupStep_found hashes frame_ids maxDist _ _ k hf]
  simp

/-- In a strictly increasing list, `find?` returns the least element
satisfying the test. -/
theorem find?_min_of_sorted {p : Nat → Bool} {b : Nat} :
    ∀ {l : List Nat}, l.Pairwise (· < ·) → l.find? p = some b →
      ∀ a ∈ l, p a = true → b ≤ a := by
  intro l
  induction l with
  | nil =>
    intro _ h
    simp at h
  | cons x xs ih =>
    intro hp hf a ha hpa
    obtain ⟨hx, hxs⟩ := List.pairwise_cons.mp hp
    by_cases hpx : p x = true
    · rw [List.find?_cons_of_pos _ hpx] at hf
      injection hf with hf
      subst hf
      rcases List.mem_cons.mp ha with rfl | hmem
      · exact Nat.le_refl _
      · exact Nat.le_of_lt (hx a hmem)
    · rw [List.find?_cons_of_neg _ hpx] at hf
      rcases List.mem_cons.mp ha with rfl | hmem
      · exact absurd hpa hpx
      · exact ih hxs hf a hmem hpa

/-- For `1 ≤ i`, the frames kept while scanning index `i` are exactly the
finally kept frames below `i`. -/
theorem dedupRun_kept_inter (hashes : List (List Nat)) (frame_ids : List Nat) (maxDist : Nat)
    {i M : Nat} (h1 : 1 ≤ i) (hiM : i - 1 ≤ M) (j : Nat) :
    j ∈ (dedupRun hashes frame_ids maxDist (i - 1)).1 ↔
      (j ∈ (dedupRun hashes frame_ids maxDist M).1 ∧ j < i) := by
  constructor
  · intro hj
    have hjle : j ≤ i - 1 := (dedupRun_kept_inv hashes frame_ids maxDist (i - 1)).2.1 j hj
    refine ⟨(dedupRun_kept_stable hashes frame_ids maxDist hjle M hiM).mpr hj, by omega⟩
  · rintro ⟨hjM, hji⟩
    have hjle : j ≤ i - 1 := by omega
    exact (dedupRun_kept_stable hashes frame_ids maxDist hjle M hiM).mp hjM

/-- On a non-empty input, `deduplicate_frames` is the loop run to the last
index. -/
theorem deduplicate_frames_eq_run (frames : List Frame) (frame_ids : List Nat) (maxDist : Nat)
    (hne : frames ≠ []) :
    deduplicate_frames frames frame_ids maxDist
      = dedupRun (frames.map compute_phash) frame_ids maxDist (frames.length - 1) := by
  have h : frames.isEmpty = false := List.isEmpty_eq_false.mpr hne
  simp [deduplicate_frames, h]

/-- A frame index past the first survives exactly when the scan over the
frames kept before it finds no match. -/
theorem dedup_mem_iff_find (frames : List Frame) (frame_ids : List Nat) (maxDist : Nat)
    (i : Nat) (h1 : 0 < i) (h2 : i < frames.length) :
    i ∈ (deduplicate_frames frames frame_ids maxDist).1 ↔
      (dedupRun (frames.map compute_phash) frame_ids maxDist (i - 1)).1.find?
        (dedupMatch (frames.map compute_phash) maxDist i) = none := by
  have hne : frames ≠ [] := by
    intro h
    subst h
    simp at h2
  rw [deduplicate_frames_eq_run frames frame_ids maxDist hne]
  have hi : i - 1 + 1 = i := by omega
  have hmem := dedupRun_mem_succ_iff (frames.map compute_phash) frame_ids maxDist (i - 1)
  rw [hi] at hmem
  have hstab := dedupRun_kept_stable (frames.map compute_phash) frame_ids maxDist
    (Nat.le_refl i) (frames.length - 1) (by omega)
  exact hstab.trans hmem

/-- Characterization of elimination: a frame beyond the first is missing
from the kept output exactly when some kept frame before it is within the
distance threshold (inclusive). -/
theorem dedup_kept_char (frames : List Frame) (frame_ids : List Nat) (maxDist : Nat)
    (i : Nat) (h1 : 0 < i) (h2 : i < frames.length) :
    i ∉ (deduplicate_frames frames frame_ids maxDist).1 ↔
      ∃ j ∈ (deduplicate_frames frames frame_ids maxDist).1, j < i ∧
        hamming_distance ((frames.map compute_phash).getD i [])
          ((frames.map compute_phash).getD j []) ≤ maxDist := by
  have hne : frames ≠ [] := by
    intro h
    subst h
    simp at h2
  have hd := deduplicate_frames_eq_run frames frame_ids maxDist hne
  have hstep := dedup_mem_iff_find frames frame_ids maxDist i h1 h2
  constructor
  · intro hnot
    cases hfq : (dedupRun (frames.map compute_phash) frame_ids maxDist (i - 1)).1.find?
        (dedupMatch (frames.map compute_phash) maxDist i) with
    | none => exact absurd (hstep.mpr hfq) hnot
    | some k =>
      have hkmem := List.mem_of_find?_eq_some hfq
      have hkp := List.find?_some hfq
      simp only [dedupMatch, decide_eq_true_eq] at hkp
      have hinter := (@dedupRun_kept_inter (frames.map compute_phash) frame_ids maxDist
        i (frames.length - 1) h1 (by omega) k).mp hkmem
      rw [← hd] at hinter
      exact ⟨k, hinter.1, hinter.2, hkp⟩
  · rintro ⟨j, hj, hji, hjd⟩ hmem
    have hfnone := hstep.mp hmem
    have hjprev := (@dedupRun_kept_inter (frames.map compute_phash) frame_ids maxDist
      i (frames.length - 1) h1 (by omega) j).mpr ⟨by rw [hd] at hj; exact hj, hji⟩
    refine (List.find?_eq_none.mp hfnone j hjprev) ?_
    simp only [dedupMatch, decide_eq_true_eq]
    exact hjd

/-- An eliminated frame is matched, with a duplicate record, to the first
kept frame within the distance threshold, in kept order. -/
theorem dedup_first_match (frames : List Frame) (frame_ids : List Nat) (maxDist : Nat)
    (i : Nat) (h1 : 0 < i) (h2 : i < frames.length)
    (helim : i ∉ (deduplicate_frames frames frame_ids maxDist).1) :
    ∃ j ∈ (deduplicate_frames frames frame_ids maxDist).1, j < i ∧
      hamming_distance ((frames.map compute_phash).getD i [])
        ((frames.map compute_phash).getD j []) ≤ maxDist ∧
      (∀ k ∈ (deduplicate_frames frames frame_ids maxDist).1, k < j →
        maxDist < hamming_distance ((frames.map compute_phash).getD i [])
          ((frames.map compute_phash).getD k [])) ∧
      (⟨frame_ids.getD i 0, frame_ids.getD j 0,
        hamming_distance ((frames.map compute_phash).getD i [])
          ((frames.map compute_phash).getD j [])⟩ : DuplicateRecord)
        ∈ (deduplicate_frames frames frame_ids maxDist).2 := by
  cases i with
  | zero => omega
  | succ i' =>
    have hne : frames ≠ [] := by
      intro h
      subst h
      simp at h2
    have hd := deduplicate_frames_eq_run frames frame_ids maxDist hne
    have hstep := dedup_mem_iff_find frames frame_ids maxDist (i' + 1) h1 h2
    rw [hd]
    cases hfq : (dedupRun (frames.map compute_phash) frame_ids maxDist i').1.find?
        (dedupMatch (frames.map compute_phash) maxDist (i' + 1)) with
    | none =>
      have : i' + 1 ∈ (deduplicate_frames frames frame_ids maxDist).1 := by
        apply hstep.mpr
        simpa using hfq
      exact absurd this helim
    | some k =>
      have hkmem := List.mem_of_find?_eq_some hfq
      have hkp := List.find?_some hfq
      simp only [dedupMatch, decide_eq_true_eq] at hkp
      have hinter := (@dedupRun_kept_inter (frames.map compute_phash) frame_ids maxDist
        (i' + 1) (frames.length - 1) h1 (by omega) k).mp (by simpa using hkmem)
      have hsort := (dedupRun_kept_inv (frames.map compute_phash) frame_ids maxDist i').2.2
      refine ⟨k, hinter.1, hinter.2, hkp, ?_, ?_⟩
      · intro k' hk' hk'k
        by_contra hnot
        push_neg at hnot
        have hk'prev : k' ∈ (dedupRun (frames.map compute_phash) frame_ids maxDist i').1 := by
          have := (@dedupRun_kept_inter (frames.map compute_phash) frame_ids maxDist
            (i' + 1) (frames.length - 1) h1 (by omega) k').mpr ⟨hk', by omega⟩
          simpa using this
        have hmin := find?_min_of_sorted hsort hfq k' hk'prev
          (by simp only [dedupMatch, decide_eq_true_eq]; exact hnot)
        omega
      · have hrec := dedupRun_record (frames.map compute_phash) frame_ids maxDist i' k hfq
        exact dedupRun_dups_mono (frames.map compute_phash) frame_ids maxDist
          (show i' + 1 ≤ frames.length - 1 by omega) _ hrec

/-- Claim C3: a frame after the first is eliminated as a duplicate exactly
when some already-kept frame's fingerprint is within Hamming distance
`maxDist` of its own (inclusive), and an eliminated frame is recorded as a
duplicate of the first such kept frame in the order kept frames were
added. -/
theorem dedup_eliminated_iff (frames : List Frame) (frame_ids : List Nat) (maxDist : Nat)
    (i : Nat) (h1 : 0 < i) (h2 : i < frames.length) :
    (i ∉ (deduplicate_frames frames frame_ids maxDist).1 ↔
      ∃ j ∈ (deduplicate_frames frames frame_ids maxDist).1, j < i ∧
        hamming_distance ((frames.map compute_phash).getD i [])
          ((frames.map compute_phash).getD j []) ≤ maxDist)
    ∧ (i ∉ (deduplicate_frames frames frame_ids maxDist).1 →
        ∃ j ∈ (deduplicate_frames frames frame_ids maxDist).1, j < i ∧
          hamming_distance ((frames.map compute_phash).getD i [])
            ((frames.map compute_phash).getD j []) ≤ maxDist ∧
          (∀ k ∈ (deduplicate_frames frames frame_ids maxDist).1, k < j →
            maxDist < hamming_distance ((frames.map compute_phash).getD i [])
              ((frames.map compute_phash).getD k [])) ∧
          (⟨frame_ids.getD i 0, frame_ids.getD j 0,
            hamming_distance ((frames.map compute_phash).getD i [])
              ((frames.map compute_phash).getD j [])⟩ : DuplicateRecord)
            ∈ (deduplicate_frames frames frame_ids maxDist).2) :=
  ⟨dedup_kept_char frames frame_ids maxDist i h1 h2,
    dedup_first_match frames frame_ids maxDist i h1 h2⟩

/-- Witness for C3: in the concrete four-frame run, frame position 3
(scene 5) is eliminated. -/
theorem dedup_eliminated_iff_witness :
    3 ∉ (deduplicate_frames [fA, fC, fD, fE] [1, 3, 4, 5] 5).1 :=
  ((dedup_eliminated_iff [fA, fC, fD, fE] [1, 3, 4, 5] 5 3 (by decide) (by decide)).1).mpr
    (by decide)

/-- Claim C4: on a non-empty input the kept-index output always contains
index 0 (the first frame is never eliminated) and is a strictly increasing
sequence of original positions. -/
theorem dedup_keeps_first_sorted (frames : List Frame) (frame_ids : List Nat) (maxDist : Nat)
    (h : frames ≠ []) :
    0 ∈ (deduplicate_frames frames frame_ids maxDist).1
    ∧ (deduplicate_frames frames frame_ids maxDist).1.Sorted (· < ·) := by
  rw [deduplicate_frames_eq_run frames frame_ids maxDist h]
  obtain ⟨h0, _, hsort⟩ :=
    dedupRun_kept_inv (frames.map compute_phash) frame_ids maxDist (frames.length - 1)
  exact ⟨h0, hsort⟩

/-- Witness for C4: the concrete four-frame run keeps index 0 and is
increasing. -/
theorem dedup_keeps_first_sorted_witness :
    0 ∈ (deduplicate_frames [fA, fC, fD, fE] [1, 3, 4, 5] 5).1
    ∧ (deduplicate_frames [fA, fC, fD, fE] [1, 3, 4, 5] 5).1.Sorted (· < ·) :=
  dedup_keeps_first_sorted [fA, fC, fD, fE] [1, 3, 4, 5] 5 (by decide)

/-- Any two distinct kept frames are farther apart than the distance
threshold (the later one scans the earlier one and survived). -/
theorem dedup_kept_pairwise_far (frames : List Frame) (frame_ids : List Nat) (maxDist : Nat) :
    ∀ a ∈ (deduplicate_frames frames frame_ids maxDist).1,
      ∀ b ∈ (deduplicate_frames frames frame_ids maxDist).1, a < b →
        maxDist < hamming_distance ((frames.map compute_phash).getD b [])
          ((frames.map compute_phash).getD a []) := by
  intro a ha b hb hab
  by_cases hfe : frames = []
  · subst hfe
    simp [deduplicate_frames] at ha
  · have hd := deduplicate_frames_eq_run frames frame_ids maxDist hfe
    have hbound : b ≤ frames.length - 1 := by
      refine (dedupRun_kept_inv (frames.map compute_phash) frame_ids maxDist
        (frames.length - 1)).2.1 b ?_
      rw [← hd]
      exact hb
    have hlen : 0 < frames.length := List.length_pos.mpr hfe
    by_contra hnot
    push_neg at hnot
    exact (dedup_kept_char frames frame_ids maxDist b (by omega) (by omega)).mpr
      ⟨a, ha, hab, hnot⟩ hb

/-- `getD` agrees with indexing when the index is in bounds. -/
theorem getD_of_lt {α : Type} (l : List α) (d : α) {n : Nat} (h : n < l.length) :
    l.getD n d = l[n] := by
  rw [List.getD_eq_getElem?_getD, List.getElem?_eq_getElem h]
  rfl

/-- The fingerprints of the re-fed kept frames are the original
fingerprints at the kept positions. -/
theorem remap_hash (frames : List Frame) (kept : List Nat)
    (hbound : ∀ k ∈ kept, k < frames.length) {x : Nat} (hx : x < kept.length) :
    ((kept.map (fun k => frames.getD k ⟨0, 0, 0, []⟩)).map compute_phash).getD x []
      = (frames.map compute_phash).getD (kept.getD x 0) [] := by
  have hk : kept.getD x 0 = kept[x] := getD_of_lt kept 0 hx
  have hkb : kept[x] < frames.length := hbound _ (List.getElem_mem hx)
  rw [hk]
  rw [getD_of_lt _ _ (show x <
    ((kept.map (fun k => frames.getD k ⟨0, 0, 0, []⟩)).map compute_phash).length by
      simp [hx])]
  rw [getD_of_lt _ _ (show kept[x] < (frames.map compute_phash).length by simp [hkb])]
  simp only [List.getElem_map]
  rw [getD_of_lt frames _ hkb]

/-- Claim C5: deduplication is idempotent.  All pairwise fingerprint
distances among kept frames exceed the threshold, so feeding the kept
frames of one run back through deduplication keeps every frame (the kept
indices are all positions, in order) and produces no duplicate records. -/
theorem dedup_idempotent (frames : List Frame) (frame_ids frame_ids2 : List Nat)
    (maxDist : Nat) :
    (∀ a ∈ (deduplicate_frames frames frame_ids maxDist).1,
       ∀ b ∈ (deduplicate_frames frames frame_ids maxDist).1, a < b →
         maxDist < hamming_distance ((frames.map compute_phash).getD b [])
           ((frames.map compute_phash).getD a []))
    ∧ (deduplicate_frames ((deduplicate_frames frames frame_ids maxDist).1.map
          (fun k => frames.getD k ⟨0, 0, 0, []⟩)) frame_ids2 maxDist).1
        = List.range (deduplicate_frames frames frame_ids maxDist).1.length
    ∧ (deduplicate_frames ((deduplicate_frames frames frame_ids maxDist).1.map
          (fun k => frames.getD k ⟨0, 0, 0, []⟩)) frame_ids2 maxDist).2 = [] := by
  refine ⟨dedup_kept_pairwise_far frames frame_ids maxDist, ?_⟩
  by_cases hk0 : (deduplicate_frames frames frame_ids maxDist).1 = []
  · rw [hk0]
    exact ⟨rfl, rfl⟩
  · have hfne : frames ≠ [] := by
      intro h
      subst h
      exact hk0 rfl
    have hlen : 0 < frames.length := List.length_pos.mpr hfne
    have hd := deduplicate_frames_eq_run frames frame_ids maxDist hfne
    have hbound : ∀ k ∈ (deduplicate_frames frames frame_ids maxDist).1, k < frames.length := by
      intro k hk
      have := (dedupRun_kept_inv (frames.map compute_phash) frame_ids maxDist
        (frames.length - 1)).2.1 k (by rw [← hd]; exact hk)
      omega
    have hsort : (deduplicate_frames frames frame_ids maxDist).1.Pairwise (· < ·) := by
      rw [hd]
      exact (dedupRun_kept_inv (frames.map compute_phash) frame_ids maxDist
        (frames.length - 1)).2.2
    have hklen : 0 < (deduplicate_frames frames frame_ids maxDist).1.length :=
      List.length_pos.mpr hk0
    have hrun : ∀ m, m < (deduplicate_frames frames frame_ids maxDist).1.length →
        dedupRun (((deduplicate_frames frames frame_ids maxDist).1.map
            (fun k => frames.getD k ⟨0, 0, 0, []⟩)).map compute_phash)
          frame_ids2 maxDist m = (List.range (m + 1), []) := by
      intro m
      induction m with
      | zero => intro _; rfl
      | succ m ih =>
        intro hm
        have hKm := ih (by omega)
        have hfind : (List.range (m + 1)).find?
            (dedupMatch (((deduplicate_frames frames frame_ids maxDist).1.map
                (fun k => frames.getD k ⟨0, 0, 0, []⟩)).map compute_phash)
              maxDist (m + 1)) = none := by
          rw [List.find?_eq_none]
          intro x hx
          have hxm : x < m + 1 := List.mem_range.mp hx
          simp only [dedupMatch, decide_eq_true_eq, not_le]
          rw [remap_hash frames _ hbound (show m + 1 <
                (deduplicate_frames frames frame_ids maxDist).1.length from hm),
              remap_hash frames _ hbound (show x <
                (deduplicate_frames frames frame_ids maxDist).1.length by omega)]
          have hxlt : x < (deduplicate_frames frames frame_ids maxDist).1.length := by omega
          have hgx : (deduplicate_frames frames frame_ids maxDist).1.getD x 0
              = (deduplicate_frames frames frame_ids maxDist).1[x] := getD_of_lt _ 0 hxlt
          have hgm : (deduplicate_frames frames frame_ids maxDist).1.getD (m + 1) 0
              = (deduplicate_frames frames frame_ids maxDist).1[m + 1] := getD_of_lt _ 0 hm
          rw [hgx, hgm]
          refine dedup_kept_pairwise_far frames frame_ids maxDist _
            (List.getElem_mem hxlt) _ (List.getElem_mem hm) ?_
          have := List.pairwise_iff_get.mp hsort ⟨x, hxlt⟩ ⟨m + 1, hm⟩ (by simpa using hxm)
          simpa using this
        calc dedupRun (((deduplicate_frames frames frame_ids maxDist).1.map
              (fun k => frames.getD k ⟨0, 0, 0, []⟩)).map compute_phash)
              frame_ids2 maxDist (m + 1)
            = dedupStep (((deduplicate_frames frames frame_ids maxDist).1.map
                (fun k => frames.getD k ⟨0, 0, 0, []⟩)).map compute_phash)
                frame_ids2 maxDist
                (dedupRun (((deduplicate_frames frames frame_ids maxDist).1.map
                  (fun k => frames.getD k ⟨0, 0, 0, []⟩)).map compute_phash)
                  frame_ids2 maxDist m) (m + 1) := rfl
          _ = dedupStep (((deduplicate_frames frames frame_ids maxDist).1.map
                (fun k => frames.getD k ⟨0, 0, 0, []⟩)).map compute_phash)
                frame_ids2 maxDist (List.range (m + 1), []) (m + 1) := by rw [hKm]
          _ = (List.range (m + 1) ++ [m + 1], []) :=
              dedupStep_none _ _ _ _ _ hfind
          _ = (List.range (m + 2), []) := by rw [← List.range_succ]
    have hne2 : (deduplicate_frames frames frame_ids maxDist).1.map
        (fun k => frames.getD k ⟨0, 0, 0, []⟩) ≠ [] := by
      intro h
      exact hk0 (List.map_eq_nil_iff.mp h)
    rw [deduplicate_frames_eq_run _ frame_ids2 maxDist hne2]
    have hlm : ((deduplicate_frames frames frame_ids maxDist).1.map
        (fun k => frames.getD k ⟨0, 0, 0, []⟩)).length
        = (deduplicate_frames frames frame_ids maxDist).1.length := List.length_map _ _
    rw [hlm]
    rw [hrun ((deduplicate_frames frames frame_ids maxDist).1.length - 1) (by omega)]
    have : (deduplicate_frames frames frame_ids maxDist).1.length - 1 + 1
        = (deduplicate_frames frames frame_ids maxDist).1.length := by omega
    rw [this]
    exact ⟨rfl, rfl⟩

/-- The kept-index list of any deduplication run is strictly increasing. -/
theorem dedup_kept_sorted_all (frames : List Frame) (frame_ids : List Nat) (maxDist : Nat) :
    (deduplicate_frames frames frame_ids maxDist).1.Pairwise (· < ·) := by
  by_cases h : frames = []
  · subst h
    simp [deduplicate_frames]
  · rw [deduplicate_frames_eq_run frames frame_ids maxDist h]
    exact (dedupRun_kept_inv (frames.map compute_phash) frame_ids maxDist
      (frames.length - 1)).2.2

/-- Selecting along a strictly increasing index list yields a sublist. -/
theorem filterMap_getElem_sublist {α : Type} :
    ∀ (l : List α) (idxs : List Nat), idxs.Pairwise (· < ·) →
      List.Sublist (idxs.filterMap (fun i => l[i]?)) l := by
  intro l
  induction l with
  | nil =>
    intro idxs _
    have h : idxs.filterMap (fun i => (([] : List α))[i]?) = [] := by
      induction idxs with
      | nil => rfl
      | cons a as iha => simp [List.filterMap_cons, iha]
    rw [h]
  | cons a l ih =>
    intro idxs hp
    cases idxs with
    | nil => exact List.nil_sublist _
    | cons i it =>
      obtain ⟨hgt, hit⟩ := List.pairwise_cons.mp hp
      cases i with
      | zero =>
        have hrest : it.filterMap (fun j => (a :: l)[j]?)
            = (it.map (fun j => j - 1)).filterMap (fun j => l[j]?) := by
          rw [List.filterMap_map]
          apply List.filterMap_congr
          intro j hj
          have h0 : 0 < j := hgt j hj
          obtain ⟨j2, rfl⟩ : ∃ j2, j = j2 + 1 := ⟨j - 1, by omega⟩
          simp
        rw [List.filterMap_cons]
        simp only [List.getElem?_cons_zero]
        rw [hrest]
        refine List.Sublist.cons₂ a (ih _ ?_)
        rw [List.pairwise_map]
        refine List.Pairwise.imp_of_mem ?_ hit
        intro x y hx hy hxy
        have := hgt x hx
        omega
      | succ i2 =>
        have hpos : ∀ j ∈ (i2 + 1) :: it, 0 < j := by
          intro j hj
          rcases List.mem_cons.mp hj with rfl | hmem
          · omega
          · have := hgt j hmem
            omega
        have hrest : ((i2 + 1) :: it).filterMap (fun j => (a :: l)[j]?)
            = (((i2 + 1) :: it).map (fun j => j - 1)).filterMap (fun j => l[j]?) := by
          rw [List.filterMap_map]
          apply List.filterMap_congr
          intro j hj
          have h0 : 0 < j := hpos j hj
          obtain ⟨j2, rfl⟩ : ∃ j2, j = j2 + 1 := ⟨j - 1, by omega⟩
          simp
        rw [hrest]
        refine List.Sublist.cons a (ih _ ?_)
        rw [List.pairwise_map]
        refine List.Pairwise.imp_of_mem ?_ hp
        intro x y hx hy hxy
        have := hpos x hx
        omega

/-- The scenes of the extracted frames form a sublist of the detected
scenes (failed reads drop scenes in place). -/
theorem extract_map_snd_sublist (read : Nat → Option Frame) (scenes : List Scene) :
    List.Sublist ((extract_keyframes read scenes).map Prod.snd) scenes := by
  induction scenes with
  | nil => exact List.nil_sublist _
  | cons s ss ih =>
    show List.Sublist (((s :: ss).filterMap
      (fun sc => (read sc.mid_frame).map (fun f => (f, sc)))).map Prod.snd) (s :: ss)
    rw [List.filterMap_cons]
    cases h : read s.mid_frame with
    | none =>
      refine List.Sublist.trans ?_ (List.Sublist.cons s (List.Sublist.refl ss))
      exact ih
    | some f =>
      exact List.Sublist.cons₂ s ih

/-- Claim C2: the pipeline stage cardinalities are non-increasing, and
each later stage is an order-preserving selection (sublist, hence subset)
of the earlier one. -/
theorem pipeline_stage_chain (qc : QualityControl) (read : Nat → Option Frame)
    (scenes : List Scene) (r : PipelineResult)
    (h : process_video qc read scenes = some r) :
    (List.Sublist r.final r.quality_passed ∧ List.Sublist r.quality_passed r.extracted
      ∧ List.Sublist (r.extracted.map Prod.snd) scenes)
    ∧ r.final.length ≤ r.quality_passed.length
    ∧ r.quality_passed.length ≤ r.extracted.length
    ∧ r.extracted.length ≤ scenes.length := by
  unfold process_video at h
  by_cases hs : scenes.isEmpty
  · rw [if_pos hs] at h
    cases h
  · rw [if_neg hs] at h
    dsimp only at h
    rw [Option.some_inj] at h
    subst h
    dsimp only
    have hext : List.Sublist ((extract_keyframes read scenes).map Prod.snd) scenes :=
      extract_map_snd_sublist read scenes
    have hfil : List.Sublist ((extract_keyframes read scenes).filter (fun fs =>
        (evaluate_frame qc fs.1 fs.2.scene_id).is_sharp
          && !(evaluate_frame qc fs.1 fs.2.scene_id).is_transition))
        (extract_keyframes read scenes) := List.filter_sublist _
    have hfin : List.Sublist ((if 1 < ((extract_keyframes read scenes).filter (fun fs =>
          (evaluate_frame qc fs.1 fs.2.scene_id).is_sharp
            && !(evaluate_frame qc fs.1 fs.2.scene_id).is_transition)).length then
          ((deduplicate_frames (((extract_keyframes read scenes).filter (fun fs =>
              (evaluate_frame qc fs.1 fs.2.scene_id).is_sharp
                && !(evaluate_frame qc fs.1 fs.2.scene_id).is_transition)).map Prod.fst)
            (((extract_keyframes read scenes).filter (fun fs =>
              (evaluate_frame qc fs.1 fs.2.scene_id).is_sharp
                && !(evaluate_frame qc fs.1 fs.2.scene_id).is_transition)).map
              (fun fs => fs.2.scene_id)) qc.dedup_hash_distance).1.filterMap
            (fun i => ((extract_keyframes read scenes).filter (fun fs =>
              (evaluate_frame qc fs.1 fs.2.scene_id).is_sharp
                && !(evaluate_frame qc fs.1 fs.2.scene_id).is_transition))[i]?),
          (deduplicate_frames (((extract_keyframes read scenes).filter (fun fs =>
              (evaluate_frame qc fs.1 fs.2.scene_id).is_sharp
                && !(evaluate_frame qc fs.1 fs.2.scene_id).is_transition)).map Prod.fst)
            (((extract_keyframes read scenes).filter (fun fs =>
              (evaluate_frame qc fs.1 fs.2.scene_id).is_sharp
                && !(evaluate_frame qc fs.1 fs.2.scene_id).is_transition)).map
              (fun fs => fs.2.scene_id)) qc.dedup_hash_distance).2)
        else
          ((extract_keyframes read scenes).filter (fun fs =>
            (evaluate_frame qc fs.1 fs.2.scene_id).is_sharp
              && !(evaluate_frame qc fs.1 fs.2.scene_id).is_transition),
           ([] : List DuplicateRecord))).1)
        ((extract_keyframes read scenes).filter (fun fs =>
          (evaluate_frame qc fs.1 fs.2.scene_id).is_sharp
            && !(evaluate_frame qc fs.1 fs.2.scene_id).is_transition)) := by
      split_ifs with hl
      · exact filterMap_getElem_sublist _ _ (dedup_kept_sorted_all _ _ _)
      · exact List.Sublist.refl _
    refine ⟨⟨hfin, hfil, hext⟩, hfin.length_le, hfil.length_le, ?_⟩
    have := hext.length_le
    simpa using this

/-- Witness for C2: the cardinality chain on the concrete five-scene run. -/
theorem pipeline_stage_chain_witness :
    exRun.final.length ≤ exRun.quality_passed.length
    ∧ exRun.quality_passed.length ≤ exRun.extracted.length
    ∧ exRun.extracted.length ≤ exScenes.length :=
  (pipeline_stage_chain defaultQualityControl exRead exScenes exRun (by decide)).2

/-- Full behaviour of the adaptive-search loop, by induction on the
remaining iteration budget: the trace is well-formed; if no probe is
within tolerance the loop runs its whole budget and returns the best
(minimum-difference) probe seen, preferring the incoming best only when
no probe improves on it; and a probe within tolerance ends the trace and
is returned itself. -/
theorem adaptiveLoop_spec (detect : ℚ → List Scene) (target tolerance : Nat) :
    ∀ (fuel iteration : Nat) (low high : ℚ) (best : Option (List Scene × ℚ × Nat))
      (tr : List IterationData) (res : Option (List Scene × ℚ)),
      (best = none ∨ ∃ s t d, best = some (s, t, d) ∧ s = detect t ∧ tolerance < d) →
      adaptiveLoop detect target tolerance fuel iteration low high best = (tr, res) →
      ((∀ e ∈ tr, e.scenes = (detect e.threshold).length
          ∧ e.diff = scene_diff (detect e.threshold).length target)
      ∧ ((∀ e ∈ tr, tolerance < e.diff) →
          tr.length = fuel
          ∧ ((best = none ∧ tr = [] ∧ res = none)
            ∨ (∃ s t d, best = some (s, t, d) ∧ res = some (s, t) ∧ ∀ e ∈ tr, d ≤ e.diff)
            ∨ (∃ e ∈ tr, res = some (detect e.threshold, e.threshold)
                ∧ (∀ e2 ∈ tr, e.diff ≤ e2.diff)
                ∧ ∀ s t d, best = some (s, t, d) → e.diff < d)))
      ∧ (∀ e ∈ tr, e.diff ≤ tolerance →
          tr.getLast? = some e ∧ res = some (detect e.threshold, e.threshold))) := by
  intro fuel
  induction fuel with
  | zero =>
    intro iteration low high best tr res hb heq
    have hz : adaptiveLoop detect target tolerance 0 iteration low high best
        = ([], best.map (fun b => (b.1, b.2.1))) := rfl
    rw [hz] at heq
    injection heq with htr hres
    subst htr
    subst hres
    refine ⟨by simp, ?_, by simp⟩
    intro _
    refine ⟨rfl, ?_⟩
    rcases hb with rfl | ⟨s, t, d, rfl, hst, hd⟩
    · exact Or.inl ⟨rfl, rfl, rfl⟩
    · exact Or.inr (Or.inl ⟨s, t, d, rfl, rfl, by simp⟩)
  | succ fuel ih =>
    intro iteration low high best tr res hb heq
    have hunf : adaptiveLoop detect target tolerance (fuel + 1) iteration low high best
        = (if scene_diff (detect ((low + high) / 2)).length target ≤ tolerance then
            ([⟨iteration, (low + high) / 2, (detect ((low + high) / 2)).length,
                scene_diff (detect ((low + high) / 2)).length target⟩],
              (updateBest (detect ((low + high) / 2)) ((low + high) / 2)
                (scene_diff (detect ((low + high) / 2)).length target) best).map
                (fun b => (b.1, b.2.1)))
          else
            ((⟨iteration, (low + high) / 2, (detect ((low + high) / 2)).length,
                scene_diff (detect ((low + high) / 2)).length target⟩ : IterationData) ::
              (adaptiveLoop detect target tolerance fuel (iteration + 1)
                (if (detect ((low + high) / 2)).length < target
                  then ((low : ℚ), (low + high) / 2) else ((low + high) / 2, high)).1
                (if (detect ((low + high) / 2)).length < target
                  then ((low : ℚ), (low + high) / 2) else ((low + high) / 2, high)).2
                (updateBest (detect ((low + high) / 2)) ((low + high) / 2)
                  (scene_diff (detect ((low + high) / 2)).length target) best)).1,
              (adaptiveLoop detect target tolerance fuel (iteration + 1)
                (if (detect ((low + high) / 2)).length < target
                  then ((low : ℚ), (low + high) / 2) else ((low + high) / 2, high)).1
                (if (detect ((low + high) / 2)).length < target
                  then ((low : ℚ), (low + high) / 2) else ((low + high) / 2, high)).2
                (updateBest (detect ((low + high) / 2)) ((low + high) / 2)
                  (scene_diff (detect ((low + high) / 2)).length target) best)).2)) := rfl
    by_cases hconv : scene_diff (detect ((low + high) / 2)).length target ≤ tolerance
    · rw [hunf, if_pos hconv] at heq
      have hbest1 : updateBest (detect ((low + high) / 2)) ((low + high) / 2)
          (scene_diff (detect ((low + high) / 2)).length target) best
          = some (detect ((low + high) / 2), (low + high) / 2,
              scene_diff (detect ((low + high) / 2)).length target) := by
        rcases hb with rfl | ⟨s, t, d, rfl, hst, hd⟩
        · rfl
        · have hlt : scene_diff (detect ((low + high) / 2)).length target < d := by omega
          simp [updateBest, hlt]
      rw [hbest1] at heq
      injection heq with htr hres
      subst htr
      subst hres
      refine ⟨?_, ?_, ?_⟩
      · intro e he
        rcases List.mem_singleton.mp he with rfl
        exact ⟨rfl, rfl⟩
      · intro hall
        have := hall _ (List.mem_singleton.mpr rfl)
        simp only at this
        omega
      · intro e he _
        rcases List.mem_singleton.mp he with rfl
        exact ⟨rfl, rfl⟩
    · rw [hunf, if_neg hconv] at heq
      have hupd : (updateBest (detect ((low + high) / 2)) ((low + high) / 2)
            (scene_diff (detect ((low + high) / 2)).length target) best
            = some (detect ((low + high) / 2), (low + high) / 2,
                scene_diff (detect ((low + high) / 2)).length target)
            ∧ (best = none ∨ ∃ s0 t0 d0, best = some (s0, t0, d0)
                ∧ scene_diff (detect ((low + high) / 2)).length target < d0))
          ∨ (∃ s0 t0 d0, best = some (s0, t0, d0)
              ∧ updateBest (detect ((low + high) / 2)) ((low + high) / 2)
                  (scene_diff (detect ((low + high) / 2)).length target) best
                  = some (s0, t0, d0)
              ∧ s0 = detect t0 ∧ tolerance < d0
              ∧ d0 ≤ scene_diff (detect ((low + high) / 2)).length target) := by
        rcases hb with rfl | ⟨s0, t0, d0, rfl, hst, hd⟩
        · exact Or.inl ⟨rfl, Or.inl rfl⟩
        · by_cases hlt : scene_diff (detect ((low + high) / 2)).length target < d0
          · exact Or.inl ⟨by simp [updateBest, hlt], Or.inr ⟨s0, t0, d0, rfl, hlt⟩⟩
          · exact Or.inr ⟨s0, t0, d0, rfl, by simp [updateBest, hlt], hst, hd, by omega⟩
      have hbinv : ∃ s1 t1 d1,
          updateBest (detect ((low + high) / 2)) ((low + high) / 2)
            (scene_diff (detect ((low + high) / 2)).length target) best = some (s1, t1, d1)
          ∧ s1 = detect t1 ∧ tolerance < d1
          ∧ d1 ≤ scene_diff (detect ((low + high) / 2)).length target := by
        rcases hupd with ⟨hcur, _⟩ | ⟨s0, t0, d0, _, hb1, hst, hd, hdle⟩
        · exact ⟨_, _, _, hcur, rfl, by omega, Nat.le_refl _⟩
        · exact ⟨s0, t0, d0, hb1, hst, hd, hdle⟩
      obtain ⟨s1, t1, d1, hb1eq, hs1, htol1, hd1le⟩ := hbinv
      injection heq with htr hres
      obtain ⟨ihA, ihB, ihC⟩ := ih (iteration + 1)
        (if (detect ((low + high) / 2)).length < target
          then ((low : ℚ), (low + high) / 2) else ((low + high) / 2, high)).1
        (if (detect ((low + high) / 2)).length < target
          then ((low : ℚ), (low + high) / 2) else ((low + high) / 2, high)).2
        (updateBest (detect ((low + high) / 2)) ((low + high) / 2)
          (scene_diff (detect ((low + high) / 2)).length target) best)
        _ _ (Or.inr ⟨s1, t1, d1, hb1eq, hs1, htol1⟩) rfl
      subst htr
      subst hres
      refine ⟨?_, ?_, ?_⟩
      · intro e he
        rcases List.mem_cons.mp he with rfl | hmem
        · exact ⟨rfl, rfl⟩
        · exact ihA e hmem
      · intro hall
        have hall2 : ∀ e ∈ (adaptiveLoop detect target tolerance fuel (iteration + 1)
            (if (detect ((low + high) / 2)).length < target
              then ((low : ℚ), (low + high) / 2) else ((low + high) / 2, high)).1
            (if (detect ((low + high) / 2)).length < target
              then ((low : ℚ), (low + high) / 2) else ((low + high) / 2, high)).2
            (updateBest (detect ((low + high) / 2)) ((low + high) / 2)
              (scene_diff (detect ((low + high) / 2)).length target) best)).1,
            tolerance < e.diff :=
          fun e he => hall e (List.mem_cons_of_mem _ he)
        obtain ⟨hlen, hcases⟩ := ihB hall2
        refine ⟨by simp [hlen], ?_⟩
        rcases hcases with ⟨hbn, _, _⟩ | ⟨s, t, d, hbeq, hres2, hmin⟩ | ⟨e, he, hres2, hmin, hlt⟩
        · rw [hb1eq] at hbn
          cases hbn
        · rw [hb1eq] at hbeq
          injection hbeq with hbeq
          injection hbeq with h1 h23
          injection h23 with h2 h3
          subst h1
          subst h2
          subst h3
          rcases hupd with ⟨hcur, hprev⟩ | ⟨s0, t0, d0, hb0, hb1eq2, _, _, hd0le⟩
          · rw [hcur] at hb1eq
            injection hb1eq with hb1eq
            injection hb1eq with g1 g23
            injection g23 with g2 g3
            subst g1
            subst g2
            subst g3
            refine Or.inr (Or.inr ⟨⟨iteration, (low + high) / 2,
              (detect ((low + high) / 2)).length,
              scene_diff (detect ((low + high) / 2)).length target⟩,
              List.mem_cons_self _ _, ?_, ?_, ?_⟩)
            · rw [hres2]
            · intro e2 he2
              rcases List.mem_cons.mp he2 with rfl | hmem2
              · exact Nat.le_refl _
              · have := hmin e2 hmem2
                dsimp only
                omega
            · intro s0 t0 d0 hb0
              rcases hprev with hbn | ⟨s3, t3, d3, hb3, hlt3⟩
              · rw [hbn] at hb0
                cases hb0
              · rw [hb3] at hb0
                injection hb0 with hb0
                injection hb0 with k1 k23
                injection k23 with k2 k3
                subst k3
                simp only
                omega
          · rw [hb1eq2] at hb1eq
            injection hb1eq with hb1eq
            injection hb1eq with g1 g23
            injection g23 with g2 g3
            subst g1
            subst g2
            subst g3
            refine Or.inr (Or.inl ⟨s0, t0, d0, hb0, hres2, ?_⟩)
            intro e2 he2
            rcases List.mem_cons.mp he2 with rfl | hmem2
            · simp only
              omega
            · exact hmin e2 hmem2
        · refine Or.inr (Or.inr ⟨e, List.mem_cons_of_mem _ he, hres2, ?_, ?_⟩)
          · intro e2 he2
            rcases List.mem_cons.mp he2 with rfl | hmem2
            · have := hlt s1 t1 d1 hb1eq
              simp only
              omega
            · exact hmin e2 hmem2
          · intro s0 t0 d0 hb0
            have hed1 := hlt s1 t1 d1 hb1eq
            rcases hupd with ⟨_, hprev⟩ | ⟨s3, t3, d3, hb3, hb1eq2, _, _, hd3le⟩
            · rcases hprev with hbn | ⟨s3, t3, d3, hb3, hlt3⟩
              · rw [hbn] at hb0
                cases hb0
              · rw [hb3] at hb0
                injection hb0 with hb0
                injection hb0 with k1 k23
                injection k23 with k2 k3
                subst k3
                omega
            · rw [hb3] at hb0
              injection hb0 with hb0
              injection hb0 with k1 k23
              injection k23 with k2 k3
              subst k3
              rw [hb1eq2] at hb1eq
              injection hb1eq with hb1eq
              injection hb1eq with g1 g23
              injection g23 with g2 g3
              subst g3
              omega
      · intro e he hetol
        rcases List.mem_cons.mp he with rfl | hmem
        · simp only at hetol
          omega
        · obtain ⟨hlast, hres2⟩ := ihC e hmem hetol
          refine ⟨?_, hres2⟩
          cases hnx : (adaptiveLoop detect target tolerance fuel (iteration + 1)
              (if (detect ((low + high) / 2)).length < target
                then ((low : ℚ), (low + high) / 2) else ((low + high) / 2, high)).1
              (if (detect ((low + high) / 2)).length < target
                then ((low : ℚ), (low + high) / 2) else ((low + high) / 2, high)).2
              (updateBest (detect ((low + high) / 2)) ((low + high) / 2)
                (scene_diff (detect ((low + high) / 2)).length target) best)).1 with
          | nil =>
            rw [hnx] at hmem
            cases hmem
          | cons x xs =>
            rw [hnx] at hlast
            rw [List.getLast?_cons_cons]
            exact hlast

/-- Claim C1: when no probe's scene-count difference from the target falls
within tolerance, the adaptive search runs its full seven-iteration budget
and returns the scenes and threshold of a probe with the minimum
difference seen across all iterations (not the last probe); and whenever a
probe is within tolerance, the search stops at that iteration (it is the
last trace entry) and returns that probe's scenes.  The trace faithfully
records each probe's scene count and difference. -/
theorem adaptive_search_best (detect : ℚ → List Scene) (target tolerance : Nat) :
    ((∀ e ∈ (adaptiveDetectScenes detect target tolerance).1, tolerance < e.diff) →
      (adaptiveDetectScenes detect target tolerance).1.length = 7
      ∧ ∃ e ∈ (adaptiveDetectScenes detect target tolerance).1,
          (adaptiveDetectScenes detect target tolerance).2
            = some (detect e.threshold, e.threshold)
          ∧ ∀ e2 ∈ (adaptiveDetectScenes detect target tolerance).1, e.diff ≤ e2.diff)
    ∧ (∀ e ∈ (adaptiveDetectScenes detect target tolerance).1, e.diff ≤ tolerance →
        (adaptiveDetectScenes detect target tolerance).1.getLast? = some e
        ∧ (adaptiveDetectScenes detect target tolerance).2
            = some (detect e.threshold, e.threshold))
    ∧ (∀ e ∈ (adaptiveDetectScenes detect target tolerance).1,
        e.scenes = (detect e.threshold).length
        ∧ e.diff = scene_diff (detect e.threshold).length target) := by
  obtain ⟨hA, hB, hC⟩ := adaptiveLoop_spec detect target tolerance 7 0 15 50 none
    (adaptiveDetectScenes detect target tolerance).1
    (adaptiveDetectScenes detect target tolerance).2 (Or.inl rfl) rfl
  refine ⟨?_, hC, hA⟩
  intro hall
  obtain ⟨hlen, hcases⟩ := hB hall
  refine ⟨hlen, ?_⟩
  rcases hcases with ⟨_, htr, _⟩ | ⟨s, t, d, hbeq, _⟩ | ⟨e, he, hres, hmin, _⟩
  · rw [htr] at hlen
    cases hlen
  · cases hbeq
  · exact ⟨e, he, hres, hmin⟩

/-- Witness for C1: for the always-zero-scene detector with target 5 and
tolerance 0, no probe converges, the trace has seven entries, and the
returned probe has the minimum difference. -/
theorem adaptive_search_best_witness :
    (adaptiveDetectScenes zeroDetect 5 0).1.length = 7
    ∧ ∃ e ∈ (adaptiveDetectScenes zeroDetect 5 0).1,
        (adaptiveDetectScenes zeroDetect 5 0).2 = some (zeroDetect e.threshold, e.threshold)
        ∧ ∀ e2 ∈ (adaptiveDetectScenes zeroDetect 5 0).1, e.diff ≤ e2.diff :=
  (adaptive_search_best zeroDetect 5 0).1 (by decide)

end VideoKeyframe
